import Mathlib

/-!
Shallow embedding of wsbeam (posener/wsbeam, file wsbeam.go) — a WebSocket
broadcast ("beam") HTTP handler — together with proofs of the specified
properties.

Modelling conventions:
* A Go buffered channel (`chan *websocket.PreparedMessage` of capacity
  `b.buffer`) is modelled as `Chan`: a fixed capacity plus a FIFO list of
  buffered messages (front of the list = oldest message, the one a receive
  would take first).  A non-blocking send
  (`select { case ch <- msg: ... default: ... }`) appends at the back when the
  buffer has room and fails otherwise.
* A `pear` (the spelling used by the source) is the per-connection handle:
  its channel and its remote address.  Go compares pears by pointer identity
  (the registry is `map[*pear]bool`); the model gives every pear a numeric
  `id` standing for the pointer, and `Beam.add` / `Beam.remove` operate on
  that identity.  The registry map is modelled as a `List pear`; Go map
  iteration order is unspecified, the model fixes insertion order (no claim
  depends on the iteration order itself).
* `json.Marshal` is modelled on a small closed payload type: strings and
  integers serialize (to a byte string), and `chanVal` stands for any value
  `encoding/json` rejects (for example a Go channel), making marshaling fail.
* `websocket.NewPreparedMessage(messageType, buf)` errors only for an invalid
  message type; `Send` always passes message type 1 (`TextMessage`), which is
  valid, so the prepare step never fails inside `Send`.
* `b.logger` is a nilable function value `func(string, ...interface{})`.  The
  model keeps only its presence (`Option Unit`) and records every call as a
  `LogLine` (format string plus formatted arguments).  Calling a nil function
  value in Go panics: the `Send` model returns `SendResult.nilLoggerCrash`
  carrying the beam state at the moment of the panic (the fan-out loop has
  already run when line 149 `b.logger(...)` executes).
* Go `int` sizes are never negative in the scenarios the claims quantify
  over; sizes and the buffer option are modelled as `Nat`.
-/

/-- A Go buffered channel of messages: capacity plus FIFO buffer. -/
structure Chan (α : Type) where
  cap : Nat
  buf : List α
  deriving Repr, DecidableEq

/-- Non-blocking send on a buffered channel (`select { case ch <- v: default: }`):
returns the updated channel and whether the send succeeded. -/
def Chan.trySend {α : Type} (c : Chan α) (v : α) : Chan α × Bool :=
  if c.buf.length < c.cap then ({ c with buf := c.buf ++ [v] }, true) else (c, false)

/-- Non-blocking receive on a buffered channel (the delivery-loop case
`case v := <-ch`): returns the updated channel and the received value, if any
message was buffered. -/
def Chan.tryRecv {α : Type} (c : Chan α) : Chan α × Option α :=
  match c.buf with
  | [] => (c, none)
  | v :: rest => ({ c with buf := rest }, some v)

/-- `websocket.PreparedMessage`: an immutable pre-serialized frame, built once
from a message type and payload bytes. -/
structure PreparedMessage where
  messageType : Nat
  data : String
  deriving Repr, DecidableEq

/-- `websocket.NewPreparedMessage`: fails only on an invalid message type
(`TextMessage = 1` and `BinaryMessage = 2` are the valid data frame types). -/
def NewPreparedMessage (messageType : Nat) (data : String) :
    Except String PreparedMessage :=
  if messageType = 1 ∨ messageType = 2 then
    .ok { messageType := messageType, data := data }
  else
    .error "websocket: bad message type"

/-- Payloads handed to `Send` (`data interface{}`).  `chanVal` stands for a
value that `encoding/json` cannot serialize. -/
inductive Payload where
  | str (s : String)
  | num (n : Int)
  | chanVal
  deriving Repr, DecidableEq

/-- `json.Marshal`, restricted to the payloads of the model: strings and
numbers succeed, unserializable values fail. -/
def jsonMarshal : Payload → Except String String
  | .str s => .ok ("\x22" ++ s ++ "\x22")
  | .num n => .ok (toString n)
  | .chanVal => .error "json: unsupported type: chan"

/-- One call observed on the logging sink: the format string and the
formatted arguments. -/
structure LogLine where
  fmt : String
  args : List String
  deriving Repr, DecidableEq

/-- The `pear` of the source: the per-connection channel and remote address,
plus an `id` standing for Go pointer identity. -/
structure pear where
  id : Nat
  ch : Chan PreparedMessage
  addr : String
  deriving Repr, DecidableEq

/-- The websocket upgrader configuration; its effect (upgrade success or
failure) is an input of the connection-handling model. -/
structure Upgrader where
  deriving Repr, DecidableEq

/-- The `Beam` struct of the source.  `logger` keeps only presence or absence
of the nilable function value. -/
structure Beam where
  pears : List pear
  buffer : Nat
  upgrader : Upgrader
  headers : List (String × String)
  logger : Option Unit
  deriving Repr, DecidableEq

/-- `New` with no options: the default values of the source (buffer 100,
logger `log.Printf`, empty registry). -/
def New : Beam :=
  { pears := [], buffer := 100, upgrader := {}, headers := [], logger := some () }

/-- `OptBuffer`. -/
def OptBuffer (buffer : Nat) (b : Beam) : Beam := { b with buffer := buffer }

/-- `OptLogger`; `none` models passing nil to disable logging. -/
def OptLogger (logger : Option Unit) (b : Beam) : Beam := { b with logger := logger }

/-- `OptHeaders`. -/
def OptHeaders (headers : List (String × String)) (b : Beam) : Beam :=
  { b with headers := headers }

/-- `strings.Join`. -/
def stringsJoin : List String → String → String
  | [], _ => ""
  | [a], _ => a
  | a :: b :: rest, sep => a ++ sep ++ stringsJoin (b :: rest) sep

/-- The `log` helper (lines 184–189): prefixes the remote address of the
pear, and is a no-op when the logger is nil. -/
def Beam.log (b : Beam) (p : pear) (format : String) (args : List String) :
    List LogLine :=
  match b.logger with
  | none => []
  | some _ => [{ fmt := "[" ++ p.addr ++ "] " ++ format, args := args }]

/-- `Beam.add` (lines 154–158): insert the pear into the registry map. -/
def Beam.add (b : Beam) (p : pear) : Beam :=
  { b with pears := b.pears ++ [p] }

/-- `Beam.remove` (lines 160–164): `delete(c.pears, p)` — removes the entry
with the identity of `p` if present, otherwise does nothing. -/
def Beam.remove (b : Beam) (p : pear) : Beam :=
  { b with pears := b.pears.filter (fun q => q.id ≠ p.id) }

/-- The fan-out loop of `Send` (lines 140–146): one non-blocking send per
registered pear; pears whose channel is full are skipped and their address is
appended to the `failed` list, in registry order. -/
def fanOut (msg : PreparedMessage) : List pear → List pear × List String
  | [] => ([], [])
  | p :: ps =>
    let r := p.ch.trySend msg
    let rest := fanOut msg ps
    ({ p with ch := r.1 } :: rest.1,
     if r.2 then rest.2 else p.addr :: rest.2)

/-- Outcome of a `Send` call.  `ret` is a normal return carrying the updated
beam, the log lines written, and the returned error (if any).
`nilLoggerCrash` is the run-time panic raised when line 149 invokes a nil
`b.logger`; it carries the beam state at the moment of the panic (the fan-out
has already mutated the channels). -/
inductive SendResult where
  | ret (b : Beam) (logs : List LogLine) (err : Option String)
  | nilLoggerCrash (b : Beam)
  deriving Repr, DecidableEq

/-- `Send` (lines 125–152): marshal the payload, prepare one message, push it
non-blockingly to every registered pear, then — if any push failed — log one
aggregated overflow line through `b.logger` (without a nil check). -/
def Beam.Send (b : Beam) (data : Payload) : SendResult :=
  match jsonMarshal data with
  | .error e => .ret b [] (some ("failed marshaling: " ++ e))
  | .ok buf =>
    match NewPreparedMessage 1 buf with
    | .error e => .ret b [] (some ("failed preparing message: " ++ e))
    | .ok msg =>
      let r := fanOut msg b.pears
      let b' := { b with pears := r.1 }
      if r.2.length > 0 then
        match b.logger with
        | none => .nilLoggerCrash b'
        | some _ =>
          .ret b'
            [{ fmt := "Discarded buffer overflow message for %s",
               args := [stringsJoin r.2 ","] }]
            none
      else
        .ret b' [] none

/-- The beam state an observer sees after `Send` finishes or panics. -/
def SendResult.beamOf : SendResult → Beam
  | .ret b _ _ => b
  | .nilLoggerCrash b => b

/-- The log lines emitted during the `Send` call. -/
def SendResult.logsOf : SendResult → List LogLine
  | .ret _ logs _ => logs
  | .nilLoggerCrash _ => []

/-- The error value returned by `Send`, when it returns at all. -/
def SendResult.errOf : SendResult → Option String
  | .ret _ _ err => err
  | .nilLoggerCrash _ => none

/-- Whether the `Send` call returned normally with a nil error. -/
def SendResult.returnedNil : SendResult → Bool
  | .ret _ _ none => true
  | _ => false

/-- Whether the `Send` call panicked on the nil logger. -/
def SendResult.crashed : SendResult → Bool
  | .nilLoggerCrash _ => true
  | _ => false

/-- A fresh pointer: an id different from every live pear id. -/
def freshId (b : Beam) : Nat :=
  (b.pears.map pear.id).foldr max 0 + 1

/-- Result of running `ServeHTTP` on a connection whose upgrade fails:
the final beam (after the deferred `remove`), the HTTP status written, the
registry contents observed at each sequential step of the handler, and the
log lines written. -/
structure ServeFailResult where
  finalBeam : Beam
  status : Nat
  registryTrace : List (List pear)
  logs : List LogLine
  deriving Repr, DecidableEq

/-- `ServeHTTP` (lines 84–101), upgrade-failure path: build a fresh pear with
a fresh channel of capacity `b.buffer`, log, `add` it, attempt the upgrade
(which fails with `upgradeErr`), log the failure, write a 500 response, and
return — running the deferred `b.remove(p)`.  The registry trace records the
registry before the call, after `add`, and after the deferred `remove`. -/
def serveHTTPUpgradeFail (b : Beam) (remoteAddr : String) (upgradeErr : String) :
    ServeFailResult :=
  let p : pear :=
    { id := freshId b, ch := { cap := b.buffer, buf := [] }, addr := remoteAddr }
  let logs1 := b.log p "New connection" []
  let b1 := b.add p
  let logs2 := b1.log p "Failed creating websocket: %s" [upgradeErr]
  let b2 := b1.remove p
  { finalBeam := b2
    status := 500
    registryTrace := [b.pears, b1.pears, b2.pears]
    logs := logs1 ++ logs2 }

/-- A sequence of `Send` calls, threading the beam state (the state observed
after each call returns or panics). -/
def sendSeq (b : Beam) : List Payload → Beam
  | [] => b
  | d :: ds => sendSeq ((b.Send d).beamOf) ds

/-- The prepared message `Send` builds for a payload whose marshaling
succeeds (text frame, message type 1); junk placeholder on marshal failure,
used only under hypotheses that exclude it. -/
def preparedOf (d : Payload) : PreparedMessage :=
  { messageType := 1,
    data := match jsonMarshal d with | .ok buf => buf | .error _ => "" }

/-- The prepared messages of a list of payloads, in order. -/
def marshalledMsgs (ds : List Payload) : List PreparedMessage :=
  ds.map preparedOf

/-- Events of the concurrent system, interleaved in an arbitrary order:
a connection is accepted and registered (`connect`, ServeHTTP lines 85–92),
a broadcast happens (`send`, lines 125–152), the delivery loop of one pear
pops its channel and writes the message to the connection (`deliver`,
lines 111–112), or a connection terminates and the deferred cleanup removes
the pear (`disconnect`, line 93; a failed write is modelled as a `disconnect`
after the last successful `deliver`). -/
inductive Event where
  | connect (remoteAddr : String)
  | send (d : Payload)
  | deliver (pid : Nat)
  | disconnect (pid : Nat)
  deriving Repr, DecidableEq

/-- One delivery-loop step of the pear with id `pid`: receive from its
channel (no-op when the channel is empty or the pear is gone). -/
def popPear (pid : Nat) : List pear → List pear × Option PreparedMessage
  | [] => ([], none)
  | p :: ps =>
    if p.id = pid then
      let r := p.ch.tryRecv
      ({ p with ch := r.1 } :: ps, r.2)
    else
      let r := popPear pid ps
      (p :: r.1, r.2)

/-- Ghost ledger update for one `Send`: for every pear whose non-blocking
push succeeds, append the message to the accepted-list of its id.  This is
bookkeeping for stating the ordering property; the proofs force it to agree
with what `Send` does to the queues. -/
def acceptedUpd (msg : PreparedMessage) :
    List pear → (Nat → List PreparedMessage) → Nat → List PreparedMessage
  | [], acc => acc
  | p :: ps, acc =>
      acceptedUpd msg ps
        (if (p.ch.trySend msg).2 then
          (fun n => if n = p.id then acc n ++ [msg] else acc n)
        else acc)

/-- Global state of the trace semantics: the beam, a fresh-pointer allocator,
and two ghost ledgers per pear id — messages written to the connection so
far, and messages successfully enqueued by `Send` so far. -/
structure World where
  beam : Beam
  nextId : Nat
  written : Nat → List PreparedMessage
  accepted : Nat → List PreparedMessage

/-- Small-step transition of the system for one event. -/
def stepEv (w : World) : Event → World
  | .connect addr =>
    let p : pear :=
      { id := w.nextId, ch := { cap := w.beam.buffer, buf := [] }, addr := addr }
    { w with beam := w.beam.add p, nextId := w.nextId + 1 }
  | .send d =>
    match jsonMarshal d with
    | .error _ => { w with beam := (w.beam.Send d).beamOf }
    | .ok buf =>
      { w with
          beam := (w.beam.Send d).beamOf,
          accepted :=
            acceptedUpd { messageType := 1, data := buf } w.beam.pears w.accepted }
  | .deliver pid =>
    let r := popPear pid w.beam.pears
    { w with
        beam := { w.beam with pears := r.1 },
        written := fun n =>
          if n = pid then w.written n ++ r.2.toList else w.written n }
  | .disconnect pid =>
    { w with
        beam :=
          { w.beam with pears := w.beam.pears.filter (fun q => q.id ≠ pid) } }

/-- Run a list of events from a starting world. -/
def runEvents (w : World) : List Event → World
  | [] => w
  | e :: es => runEvents (stepEv w e) es

/-- The initial world: a freshly constructed beam with the given
configuration and no connections. -/
def initWorld (buffer : Nat) (headers : List (String × String)) (lg : Option Unit) :
    World :=
  { beam :=
      { pears := [], buffer := buffer, upgrader := {}, headers := headers,
        logger := lg },
    nextId := 0,
    written := fun _ => [],
    accepted := fun _ => [] }

/-- Trace invariant: live pear ids are below the allocator, ids are distinct,
unallocated ids have empty ledgers, for every live pear the written prefix
followed by the pending queue equals the accepted sequence, and for every id
the written sequence is a prefix of the accepted sequence. -/
def WInv (w : World) : Prop :=
  (∀ p ∈ w.beam.pears, p.id < w.nextId) ∧
  (w.beam.pears.map pear.id).Nodup ∧
  (∀ n, w.nextId ≤ n → w.written n = [] ∧ w.accepted n = []) ∧
  (∀ p ∈ w.beam.pears, w.written p.id ++ p.ch.buf = w.accepted p.id) ∧
  (∀ n, ∃ rest, w.written n ++ rest = w.accepted n)

lemma NewPreparedMessage_one (buf : String) :
    NewPreparedMessage 1 buf = .ok { messageType := 1, data := buf } := rfl

lemma fanOut_fst (msg : PreparedMessage) (ps : List pear) :
    (fanOut msg ps).1 = ps.map (fun p => { p with ch := (p.ch.trySend msg).1 }) := by
  induction ps with
  | nil => rfl
  | cons p ps ih => simp [fanOut, ih]

lemma trySend_cap {α : Type} (c : Chan α) (v : α) : ((c.trySend v).1).cap = c.cap := by
  unfold Chan.trySend
  split <;> rfl

lemma fanOut_ids (msg : PreparedMessage) (ps : List pear) :
    (fanOut msg ps).1.map pear.id = ps.map pear.id := by
  rw [fanOut_fst]
  simp [List.map_map, Function.comp]

lemma Send_beamOf_ok (b : Beam) (d : Payload) (buf : String)
    (h : jsonMarshal d = .ok buf) :
    (b.Send d).beamOf =
      { b with pears := (fanOut { messageType := 1, data := buf } b.pears).1 } := by
  unfold Beam.Send
  rw [h]
  dsimp only
  rw [NewPreparedMessage_one]
  dsimp only
  split
  · split <;> rfl
  · rfl

lemma Send_err (b : Beam) (d : Payload) (e : String)
    (h : jsonMarshal d = .error e) :
    b.Send d = .ret b [] (some ("failed marshaling: " ++ e)) := by
  unfold Beam.Send
  rw [h]

lemma Send_ok (b : Beam) (d : Payload) (buf : String)
    (h : jsonMarshal d = .ok buf) :
    b.Send d =
      (if (fanOut { messageType := 1, data := buf } b.pears).2.length > 0 then
        match b.logger with
        | none =>
          SendResult.nilLoggerCrash
            { b with pears := (fanOut { messageType := 1, data := buf } b.pears).1 }
        | some _ =>
          .ret { b with pears := (fanOut { messageType := 1, data := buf } b.pears).1 }
            [{ fmt := "Discarded buffer overflow message for %s",
               args := [stringsJoin (fanOut { messageType := 1, data := buf } b.pears).2 ","] }]
            none
      else
        .ret { b with pears := (fanOut { messageType := 1, data := buf } b.pears).1 }
          [] none) := by
  unfold Beam.Send
  rw [h]
  dsimp only
  rw [NewPreparedMessage_one]

lemma mem_le_foldr_max (l : List Nat) (x : Nat) (hx : x ∈ l) :
    x ≤ l.foldr max 0 := by
  induction l with
  | nil => cases hx
  | cons a l ih =>
      rcases List.mem_cons.mp hx with h | h
      · subst h; exact le_max_left _ _
      · exact le_trans (ih h) (le_max_right _ _)

lemma freshId_not_mem (b : Beam) : ∀ q ∈ b.pears, q.id ≠ freshId b := by
  intro q hq
  have hle : q.id ≤ (b.pears.map pear.id).foldr max 0 :=
    mem_le_foldr_max _ _ (List.mem_map_of_mem _ hq)
  unfold freshId
  omega

lemma preparedOf_ok (d : Payload) (buf : String) (h : jsonMarshal d = .ok buf) :
    preparedOf d = { messageType := 1, data := buf } := by
  simp [preparedOf, h]

lemma marshalledMsgs_cons (d : Payload) (ds : List Payload) :
    marshalledMsgs (d :: ds) = preparedOf d :: marshalledMsgs ds := rfl

lemma fanOut_getElem? (msg : PreparedMessage) (ps : List pear) (i : Nat) (p : pear)
    (hp : ps[i]? = some p) :
    (fanOut msg ps).1[i]? = some { p with ch := (p.ch.trySend msg).1 } := by
  rw [fanOut_fst, List.getElem?_map, hp]
  rfl

lemma fanOut_failed_mem (msg : PreparedMessage) (ps : List pear) (p : pear)
    (hp : p ∈ ps) (hfull : (p.ch.trySend msg).2 = false) :
    p.addr ∈ (fanOut msg ps).2 := by
  induction ps with
  | nil => cases hp
  | cons q l ih =>
      rcases List.mem_cons.mp hp with h | h
      · subst h
        simp [fanOut, hfull]
      · by_cases hq : (q.ch.trySend msg).2
        · simpa [fanOut, hq] using ih h
        · simp only [Bool.not_eq_true] at hq
          simpa [fanOut, hq] using Or.inr (ih h)

lemma sendSeq_two (K c bf i1 i2 : Nat) (a aB : String)
    (hs : List (String × String)) (lg : Option Unit)
    (qa qb : List PreparedMessage) (ds : List Payload)
    (hok : ∀ d ∈ ds, (jsonMarshal d).isOk = true)
    (hroom : qb.length + ds.length ≤ c) :
    sendSeq
      { pears := [{ id := i1, ch := { cap := K, buf := qa }, addr := a },
                  { id := i2, ch := { cap := c, buf := qb }, addr := aB }],
        buffer := bf, upgrader := {}, headers := hs, logger := lg } ds =
      { pears := [{ id := i1,
                    ch := { cap := K,
                            buf := qa ++ (marshalledMsgs ds).take (K - qa.length) },
                    addr := a },
                  { id := i2, ch := { cap := c, buf := qb ++ marshalledMsgs ds },
                    addr := aB }],
        buffer := bf, upgrader := {}, headers := hs, logger := lg } := by
  induction ds generalizing qa qb with
  | nil => simp [sendSeq, marshalledMsgs]
  | cons d ds ih =>
      have hd : (jsonMarshal d).isOk = true := hok d (List.mem_cons_self d ds)
      obtain ⟨buf, hbuf⟩ : ∃ buf, jsonMarshal d = .ok buf := by
        cases hj : jsonMarshal d with
        | ok v => exact ⟨v, rfl⟩
        | error e => rw [hj] at hd; cases hd
      have hqb : qb.length < c := by
        simp only [List.length_cons] at hroom; omega
      show sendSeq
          ((Beam.Send { pears := _, buffer := bf, upgrader := {}, headers := hs,
                        logger := lg } d).beamOf) ds = _
      rw [Send_beamOf_ok _ d buf hbuf, fanOut_fst]
      by_cases hqa : qa.length < K
      · simp only [List.map, Chan.trySend, if_pos hqa, if_pos hqb]
        rw [ih (qa ++ [({ messageType := 1, data := buf } : PreparedMessage)])
              (qb ++ [({ messageType := 1, data := buf } : PreparedMessage)])
              (fun d hd => hok d (List.mem_cons_of_mem _ hd))
              (by simp only [List.length_append, List.length_singleton]
                  simp only [List.length_cons] at hroom
                  omega)]
        have hn : K - qa.length = (K - (qa.length + 1)) + 1 := by omega
        rw [marshalledMsgs_cons, preparedOf_ok d buf hbuf, hn, List.take_succ_cons]
        simp [List.append_assoc]
      · simp only [List.map, Chan.trySend, if_neg hqa, if_pos hqb]
        rw [ih qa (qb ++ [({ messageType := 1, data := buf } : PreparedMessage)])
              (fun d hd => hok d (List.mem_cons_of_mem _ hd))
              (by simp only [List.length_append, List.length_singleton]
                  simp only [List.length_cons] at hroom
                  omega)]
        have hn : K - qa.length = 0 := by omega
        rw [marshalledMsgs_cons, preparedOf_ok d buf hbuf, hn]
        simp [List.take]

lemma acceptedUpd_not_mem (msg : PreparedMessage) (ps : List pear)
    (acc : Nat → List PreparedMessage) (n : Nat) (hn : n ∉ ps.map pear.id) :
    acceptedUpd msg ps acc n = acc n := by
  induction ps generalizing acc with
  | nil => rfl
  | cons p ps ih =>
      simp only [List.map_cons, List.mem_cons, not_or] at hn
      rw [acceptedUpd, ih _ hn.2]
      split
      · simp only [if_neg (fun h => hn.1 h)]
      · rfl

lemma acceptedUpd_extends (msg : PreparedMessage) (ps : List pear)
    (acc : Nat → List PreparedMessage) (n : Nat) :
    ∃ t, acceptedUpd msg ps acc n = acc n ++ t := by
  induction ps generalizing acc with
  | nil => exact ⟨[], (List.append_nil _).symm⟩
  | cons p ps ih =>
      rw [acceptedUpd]
      split
      · obtain ⟨t, ht⟩ :=
          ih (fun m => if m = p.id then acc m ++ [msg] else acc m)
        rw [ht]
        by_cases hn : n = p.id
        · exact ⟨[msg] ++ t, by simp [hn, List.append_assoc]⟩
        · exact ⟨t, by simp [hn]⟩
      · exact ih acc

lemma acceptedUpd_mem (msg : PreparedMessage) (ps : List pear)
    (acc : Nat → List PreparedMessage) (p : pear) (hp : p ∈ ps)
    (hnodup : (ps.map pear.id).Nodup) :
    acceptedUpd msg ps acc p.id =
      acc p.id ++ (if (p.ch.trySend msg).2 then [msg] else []) := by
  induction ps generalizing acc with
  | nil => cases hp
  | cons q ps ih =>
      rw [List.map_cons] at hnodup
      have hnd := List.nodup_cons.mp hnodup
      rcases List.mem_cons.mp hp with h | h
      · subst h
        rw [acceptedUpd, acceptedUpd_not_mem msg ps _ p.id hnd.1]
        split
        · simp
        · simp
      · have hpq : p.id ≠ q.id := by
          intro hc
          exact hnd.1 (hc ▸ List.mem_map_of_mem pear.id h)
        rw [acceptedUpd, ih _ h hnd.2]
        split
        · simp [hpq]
        · rfl

lemma popPear_ids (pid : Nat) (ps : List pear) :
    (popPear pid ps).1.map pear.id = ps.map pear.id := by
  induction ps with
  | nil => rfl
  | cons p ps ih =>
      rw [popPear]
      split
      · simp
      · simp [ih]

lemma popPear_not_mem (pid : Nat) (ps : List pear)
    (h : pid ∉ ps.map pear.id) :
    popPear pid ps = (ps, none) := by
  induction ps with
  | nil => rfl
  | cons p ps ih =>
      rw [List.map_cons, List.mem_cons, not_or] at h
      rw [popPear, if_neg (fun hc => h.1 hc.symm), ih h.2]

lemma popPear_recv (pid : Nat) (ps : List pear) (p : pear) (hp : p ∈ ps)
    (hid : p.id = pid) (hnodup : (ps.map pear.id).Nodup) :
    ∃ rest2, p.ch.buf = (popPear pid ps).2.toList ++ rest2 := by
  induction ps with
  | nil => cases hp
  | cons q ps ih =>
      rw [List.map_cons] at hnodup
      have hnd := List.nodup_cons.mp hnodup
      rcases List.mem_cons.mp hp with h | h
      · subst h
        rw [popPear, if_pos hid]
        cases hbuf : p.ch.buf with
        | nil => exact ⟨[], by simp [Chan.tryRecv, hbuf]⟩
        | cons m rest => exact ⟨rest, by simp [Chan.tryRecv, hbuf]⟩
      · have hq : ¬ q.id = pid := by
          intro hc
          exact hnd.1 ((hc.trans hid.symm) ▸ List.mem_map_of_mem pear.id h)
        rw [popPear, if_neg hq]
        exact ih h hnd.2

lemma popPear_inv (pid : Nat) (ps : List pear)
    (wr ac : Nat → List PreparedMessage)
    (hnodup : (ps.map pear.id).Nodup)
    (hinv : ∀ p ∈ ps, wr p.id ++ p.ch.buf = ac p.id) :
    ∀ q ∈ (popPear pid ps).1,
      (if q.id = pid then wr q.id ++ (popPear pid ps).2.toList else wr q.id) ++
        q.ch.buf = ac q.id := by
  induction ps with
  | nil => intro q hq; rw [popPear] at hq; cases hq
  | cons p ps ih =>
      rw [List.map_cons] at hnodup
      have hnd := List.nodup_cons.mp hnodup
      intro q hq
      by_cases hpid : p.id = pid
      · rw [popPear, if_pos hpid] at hq ⊢
        rcases List.mem_cons.mp hq with h | h
        · subst h
          have hp0 := hinv p (List.mem_cons_self p ps)
          cases hbuf : p.ch.buf with
          | nil =>
              rw [hbuf] at hp0
              simp only [Chan.tryRecv, hbuf]
              simpa [hpid] using hp0
          | cons m rest =>
              rw [hbuf] at hp0
              simp only [Chan.tryRecv, hbuf]
              simpa [hpid, List.append_assoc] using hp0
        · have hq2 : ¬ q.id = pid := by
            intro hc
            exact hnd.1 ((hc.trans hpid.symm).symm ▸ List.mem_map_of_mem pear.id h)
          rw [if_neg hq2]
          exact hinv q (List.mem_cons_of_mem _ h)
      · rw [popPear, if_neg hpid] at hq ⊢
        rcases List.mem_cons.mp hq with h | h
        · subst h
          rw [if_neg hpid]
          exact hinv q (List.mem_cons_self q ps)
        · exact ih hnd.2 (fun r hr => hinv r (List.mem_cons_of_mem _ hr)) q h

lemma WInv_step (w : World) (e : Event) (h : WInv w) : WInv (stepEv w e) := by
  obtain ⟨h1, h2, h3, h4, h5⟩ := h
  cases e with
  | connect addr =>
      refine ⟨?_, ?_, ?_, ?_, h5⟩
      · intro q hq
        simp only [stepEv, Beam.add, List.mem_append, List.mem_singleton] at hq
        rcases hq with hq | hq
        · exact Nat.lt_succ_of_lt (h1 q hq)
        · subst hq
          exact Nat.lt_succ_self _
      · simp only [stepEv, Beam.add, List.map_append, List.map_cons,
          List.map_nil]
        refine List.Nodup.append h2 (List.nodup_singleton _) ?_
        intro a ha hb
        rw [List.mem_singleton] at hb
        subst hb
        obtain ⟨q, hq, hqa⟩ := List.mem_map.mp ha
        exact absurd (hqa ▸ h1 q hq) (lt_irrefl _)
      · intro n hn
        exact h3 n (by simp only [stepEv] at hn; omega)
      · intro q hq
        simp only [stepEv, Beam.add, List.mem_append, List.mem_singleton] at hq
        rcases hq with hq | hq
        · exact h4 q hq
        · subst hq
          simp only [stepEv]
          rw [(h3 w.nextId le_rfl).1, (h3 w.nextId le_rfl).2]
          rfl
  | send d =>
      cases hm : jsonMarshal d with
      | error err =>
          have hb : (w.beam.Send d).beamOf = w.beam := by
            rw [Send_err w.beam d err hm]
            rfl
          simp only [stepEv, hm, hb]
          exact ⟨h1, h2, h3, h4, h5⟩
      | ok buf =>
          have hb : (w.beam.Send d).beamOf =
              { w.beam with
                pears := (fanOut { messageType := 1, data := buf }
                  w.beam.pears).1 } :=
            Send_beamOf_ok w.beam d buf hm
          simp only [stepEv, hm, hb]
          refine ⟨?_, ?_, ?_, ?_, ?_⟩
          · intro q hq
            rw [fanOut_fst] at hq
            obtain ⟨p, hp, rfl⟩ := List.mem_map.mp hq
            exact h1 p hp
          · rw [fanOut_ids]
            exact h2
          · intro n hn
            dsimp only at hn ⊢
            refine ⟨(h3 n hn).1, ?_⟩
            rw [acceptedUpd_not_mem _ _ _ n ?_]
            · exact (h3 n hn).2
            · intro hmem
              obtain ⟨p, hp, hpn⟩ := List.mem_map.mp hmem
              exact absurd (hpn ▸ h1 p hp) (by omega)
          · intro q hq
            dsimp only at hq ⊢
            rw [fanOut_fst] at hq
            obtain ⟨p, hp, rfl⟩ := List.mem_map.mp hq
            dsimp only
            rw [acceptedUpd_mem _ _ _ p hp h2]
            by_cases hc : p.ch.buf.length < p.ch.cap
            · have hts : p.ch.trySend { messageType := 1, data := buf } =
                  ({ p.ch with
                     buf := p.ch.buf ++ [{ messageType := 1, data := buf }] },
                   true) := by
                unfold Chan.trySend
                rw [if_pos hc]
              rw [hts]
              rw [← List.append_assoc, h4 p hp]
              simp
            · have hts : p.ch.trySend { messageType := 1, data := buf } =
                  (p.ch, false) := by
                unfold Chan.trySend
                rw [if_neg hc]
              rw [hts]
              simp only [Bool.false_eq_true, if_neg (by exact fun hf => hf)]
              rw [List.append_nil]
              exact h4 p hp
          · intro n
            dsimp only
            obtain ⟨t, ht⟩ :=
              acceptedUpd_extends { messageType := 1, data := buf }
                w.beam.pears w.accepted n
            obtain ⟨rest, hr⟩ := h5 n
            exact ⟨rest ++ t, by rw [ht, ← hr, List.append_assoc]⟩
  | deliver pid =>
      refine ⟨?_, ?_, ?_, ?_, ?_⟩
      · intro q hq
        simp only [stepEv] at hq
        have hmem : q.id ∈ (popPear pid w.beam.pears).1.map pear.id :=
          List.mem_map_of_mem pear.id hq
        rw [popPear_ids] at hmem
        obtain ⟨p, hp, hpq⟩ := List.mem_map.mp hmem
        exact hpq ▸ h1 p hp
      · simp only [stepEv]
        rw [popPear_ids]
        exact h2
      · intro n hn
        simp only [stepEv] at hn ⊢
        refine ⟨?_, (h3 n hn).2⟩
        by_cases hc : n = pid
        · subst hc
          have hnm : n ∉ w.beam.pears.map pear.id := by
            intro hmem
            obtain ⟨p, hp, hpn⟩ := List.mem_map.mp hmem
            exact absurd (hpn ▸ h1 p hp) (by omega)
          rw [if_pos rfl, popPear_not_mem n _ hnm]
          simp [(h3 n hn).1]
        · rw [if_neg hc]
          exact (h3 n hn).1
      · intro q hq
        simp only [stepEv] at hq ⊢
        exact popPear_inv pid w.beam.pears w.written w.accepted h2 h4 q hq
      · intro n
        simp only [stepEv]
        by_cases hc : n = pid
        · subst hc
          rw [if_pos rfl]
          by_cases hmem : n ∈ w.beam.pears.map pear.id
          · obtain ⟨p, hp, hpn⟩ := List.mem_map.mp hmem
            obtain ⟨rest2, hrest2⟩ := popPear_recv n w.beam.pears p hp hpn h2
            refine ⟨rest2, ?_⟩
            rw [List.append_assoc, ← hrest2, ← hpn]
            exact h4 p hp
          · rw [popPear_not_mem n _ hmem]
            simp only [Option.toList_none, List.append_nil]
            exact h5 n
        · rw [if_neg hc]
          exact h5 n
  | disconnect pid =>
      refine ⟨?_, ?_, h3, ?_, h5⟩
      · intro q hq
        simp only [stepEv] at hq
        exact h1 q (List.mem_of_mem_filter hq)
      · simp only [stepEv]
        exact List.Nodup.sublist
          (List.Sublist.map pear.id (List.filter_sublist _)) h2
      · intro q hq
        simp only [stepEv] at hq
        exact h4 q (List.mem_of_mem_filter hq)

lemma WInv_run (w : World) (es : List Event) (h : WInv w) :
    WInv (runEvents w es) := by
  induction es generalizing w with
  | nil => exact h
  | cons e es ih => exact ih _ (WInv_step w e h)

lemma WInv_init (buffer : Nat) (headers : List (String × String))
    (lg : Option Unit) : WInv (initWorld buffer headers lg) := by
  refine ⟨?_, ?_, ?_, ?_, ?_⟩ <;>
    simp [initWorld, WInv]

/-- C1: contrary to the claim, disabling the logging sink is NOT harmless on
the overflow path.  On a beam whose logger is nil and whose single registered
pear has a full queue (capacity 0), `Send` of a serializable payload reaches
line 149, invokes the nil logger function and panics instead of returning
success; the same call with a configured logger returns success.  This
evaluation exhibits the code bug: `Send` calls `b.logger` directly, without
the nil check that the `log` helper performs. -/
theorem C1_nil_logger_overflow_panics :
    (Beam.Send
        { pears := [{ id := 1, ch := { cap := 0, buf := [] }, addr := "1.2.3.4" }],
          buffer := 0, upgrader := {}, headers := [], logger := none }
        (Payload.str "x")).crashed = true ∧
    (Beam.Send
        { pears := [{ id := 1, ch := { cap := 0, buf := [] }, addr := "1.2.3.4" }],
          buffer := 0, upgrader := {}, headers := [], logger := none }
        (Payload.str "x")).returnedNil = false ∧
    (Beam.Send
        { pears := [{ id := 1, ch := { cap := 0, buf := [] }, addr := "1.2.3.4" }],
          buffer := 0, upgrader := {}, headers := [], logger := some () }
        (Payload.str "x")).returnedNil = true := ⟨rfl, rfl, rfl⟩

/-- C2 counterexample: the new pear IS present in the registry at the middle
step of the handling of a connection whose upgrade fails (it is added at
line 92, before the upgrade attempt at line 96), refuting the part of the
claim that says the Peer is at no point present in the Registry. -/
theorem C2_peer_transiently_registered :
    ((serveHTTPUpgradeFail New "9.9.9.9" "handshake denied").registryTrace.any
      (fun s => s.any (fun q => q.addr == "9.9.9.9"))) = true := rfl

/-- C2 (amended): on upgrade failure the handler responds with status 500 and
terminates with the Registry exactly as before the call (the transient pear
added before the upgrade attempt is removed by the deferred cleanup); the
registry trace is: initial state, state with the fresh pear registered,
initial state again. -/
theorem C2_upgrade_fail_amended (b : Beam) (remoteAddr upgradeErr : String) :
    ((serveHTTPUpgradeFail b remoteAddr upgradeErr).status = 500) ∧
    ((serveHTTPUpgradeFail b remoteAddr upgradeErr).finalBeam = b) ∧
    (∃ p : pear, p.addr = remoteAddr ∧
      (serveHTTPUpgradeFail b remoteAddr upgradeErr).registryTrace =
        [b.pears, b.pears ++ [p], b.pears]) := by
  have hp := freshId_not_mem b
  have hfil : (b.pears ++
        [({ id := freshId b, ch := { cap := b.buffer, buf := [] },
            addr := remoteAddr } : pear)]).filter
          (fun q => q.id ≠ freshId b) = b.pears := by
    rw [List.filter_append]
    have h1 : b.pears.filter (fun q => decide (q.id ≠ freshId b)) = b.pears :=
      List.filter_eq_self.mpr (by intro a ha; simpa using hp a ha)
    simpa using h1
  refine ⟨rfl, ?_, ?_⟩
  · show Beam.remove (Beam.add b _) _ = b
    unfold Beam.add Beam.remove
    cases b with
    | mk pears buffer upgrader headers logger =>
        simp only at hfil ⊢
        rw [hfil]
  · exact ⟨{ id := freshId b, ch := { cap := b.buffer, buf := [] },
             addr := remoteAddr }, rfl,
           by
             show ([b.pears, (Beam.add b _).pears,
               (Beam.remove (Beam.add b _) _).pears] = _)
             unfold Beam.add Beam.remove
             simp only
             rw [hfil]⟩

/-- C3: the claim that `Send` returns an error exactly when serialization
fails — and otherwise returns success regardless of how many enqueues fail —
is contradicted by the code at one point: serialization failure does return
an error (first conjunct), and with a configured logger a full queue still
yields success (last conjunct), but on a beam whose logger is nil a
serializable payload with a failed enqueue makes `Send` panic on the nil
logger instead of returning success (middle conjuncts). -/
theorem C3_send_success_not_guaranteed :
    (Beam.Send New Payload.chanVal).errOf =
        some ("failed marshaling: " ++ "json: unsupported type: chan") ∧
    jsonMarshal (Payload.str "a") = .ok "\x22a\x22" ∧
    (Beam.Send
        { pears := [{ id := 7, ch := { cap := 0, buf := [] }, addr := "5.6.7.8" }],
          buffer := 0, upgrader := {}, headers := [], logger := none }
        (Payload.str "a")).returnedNil = false ∧
    (Beam.Send
        { pears := [{ id := 7, ch := { cap := 0, buf := [] }, addr := "5.6.7.8" }],
          buffer := 0, upgrader := {}, headers := [], logger := none }
        (Payload.str "a")).crashed = true ∧
    (Beam.Send
        { pears := [{ id := 7, ch := { cap := 0, buf := [] }, addr := "5.6.7.8" }],
          buffer := 0, upgrader := {}, headers := [], logger := some () }
        (Payload.str "a")).returnedNil = true := ⟨rfl, rfl, rfl, rfl, rfl⟩

/-- C4: `Send` is atomic on serialization failure: when marshaling fails, the
call returns the marshaling error with the beam — registry and every pear
queue — completely untouched and no log line written. -/
theorem C4_send_atomic_on_marshal_failure (b : Beam) (d : Payload) (e : String)
    (h : jsonMarshal d = .error e) :
    b.Send d = .ret b [] (some ("failed marshaling: " ++ e)) :=
  Send_err b d e h

/-- C4 witness: concrete evaluation on a beam with one registered pear and an
unserializable payload. -/
theorem C4_witness :
    Beam.Send
        { pears := [{ id := 3, ch := { cap := 2, buf := [] }, addr := "10.0.0.1" }],
          buffer := 2, upgrader := {}, headers := [], logger := some () }
        Payload.chanVal =
      .ret
        { pears := [{ id := 3, ch := { cap := 2, buf := [] }, addr := "10.0.0.1" }],
          buffer := 2, upgrader := {}, headers := [], logger := some () }
        [] (some ("failed marshaling: " ++ "json: unsupported type: chan")) :=
  C4_send_atomic_on_marshal_failure
    { pears := [{ id := 3, ch := { cap := 2, buf := [] }, addr := "10.0.0.1" }],
      buffer := 2, upgrader := {}, headers := [], logger := some () }
    Payload.chanVal "json: unsupported type: chan" rfl

/-- C5: per-pear drop semantics of the fan-out.  First part: in a single
`Send`, a pear whose queue is full at enqueue time is left untouched and its
address is collected into the failed list, while a pear with room gets the
message appended at the back of its queue.  Second part: on a beam with two
fresh pears — one of capacity K with no dequeues, one of capacity at least
K + 1 — sending K + 1 serializable payloads leaves exactly the first K
prepared messages in the first queue (the final payload is dropped for it)
and all K + 1 in the second. -/
theorem C5_full_queue_drop :
    (∀ (msg : PreparedMessage) (ps : List pear) (i : Nat) (p : pear),
        ps[i]? = some p →
        ((p.ch.cap ≤ p.ch.buf.length →
            (fanOut msg ps).1[i]? = some p ∧ p.addr ∈ (fanOut msg ps).2) ∧
         (p.ch.buf.length < p.ch.cap →
            (fanOut msg ps).1[i]? =
              some { p with ch := { p.ch with buf := p.ch.buf ++ [msg] } }))) ∧
    (∀ (K c bf i1 i2 : Nat) (a aB : String) (hs : List (String × String))
        (lg : Option Unit) (ds : List Payload),
        (∀ d ∈ ds, (jsonMarshal d).isOk = true) →
        ds.length = K + 1 →
        K + 1 ≤ c →
        sendSeq
          { pears := [{ id := i1, ch := { cap := K, buf := [] }, addr := a },
                      { id := i2, ch := { cap := c, buf := [] }, addr := aB }],
            buffer := bf, upgrader := {}, headers := hs, logger := lg } ds =
          { pears := [{ id := i1,
                        ch := { cap := K, buf := (marshalledMsgs ds).take K },
                        addr := a },
                      { id := i2, ch := { cap := c, buf := marshalledMsgs ds },
                        addr := aB }],
            buffer := bf, upgrader := {}, headers := hs, logger := lg }) := by
  constructor
  · intro msg ps i p hp
    have hmem : p ∈ ps := List.getElem?_mem hp
    constructor
    · intro hfull
      have hts : p.ch.trySend msg = (p.ch, false) := by
        unfold Chan.trySend
        rw [if_neg (by omega)]
      refine ⟨?_, fanOut_failed_mem msg ps p hmem (by rw [hts])⟩
      rw [fanOut_getElem? msg ps i p hp, hts]
    · intro hroom
      have hts : p.ch.trySend msg =
          ({ p.ch with buf := p.ch.buf ++ [msg] }, true) := by
        unfold Chan.trySend
        rw [if_pos hroom]
      rw [fanOut_getElem? msg ps i p hp, hts]
  · intro K c bf i1 i2 a aB hs lg ds hok hlen hc
    have h := sendSeq_two K c bf i1 i2 a aB hs lg [] [] ds hok
      (by simp only [List.length_nil]; omega)
    simpa using h

/-- C5 witness: a full pear (capacity 0) is skipped and collected, and with
K = 1 sending two payloads leaves one message in the capacity-1 queue and
both in the capacity-5 queue. -/
theorem C5_witness :
    ((fanOut { messageType := 1, data := "m" }
        [{ id := 9, ch := { cap := 0, buf := [] }, addr := "full.peer" }]).1[0]? =
          some { id := 9, ch := { cap := 0, buf := [] }, addr := "full.peer" } ∧
      "full.peer" ∈ (fanOut { messageType := 1, data := "m" }
        [{ id := 9, ch := { cap := 0, buf := [] }, addr := "full.peer" }]).2) ∧
    sendSeq
        { pears := [{ id := 1, ch := { cap := 1, buf := [] }, addr := "A" },
                    { id := 2, ch := { cap := 5, buf := [] }, addr := "B" }],
          buffer := 1, upgrader := {}, headers := [], logger := some () }
        [Payload.str "1", Payload.str "2"] =
      { pears := [{ id := 1,
                    ch := { cap := 1,
                            buf := [{ messageType := 1, data := "\x221\x22" }] },
                    addr := "A" },
                  { id := 2,
                    ch := { cap := 5,
                            buf := [{ messageType := 1, data := "\x221\x22" },
                                    { messageType := 1, data := "\x222\x22" }] },
                    addr := "B" }],
        buffer := 1, upgrader := {}, headers := [], logger := some () } :=
  ⟨(C5_full_queue_drop.1 { messageType := 1, data := "m" }
      [{ id := 9, ch := { cap := 0, buf := [] }, addr := "full.peer" }] 0
      { id := 9, ch := { cap := 0, buf := [] }, addr := "full.peer" } rfl).1
      (by decide),
   C5_full_queue_drop.2 1 5 1 1 2 "A" "B" [] (some ())
      [Payload.str "1", Payload.str "2"] (by decide) rfl (by decide)⟩

/-- C6 counterexample: with a nil logger and a failed push, `Send` emits zero
log lines (it panics on the nil logger before any line could be written),
refuting the claim that exactly one aggregated line is emitted whenever at
least one push failed. -/
theorem C6_nil_logger_no_aggregated_line :
    ((fanOut { messageType := 1, data := "\x22z\x22" }
        [{ id := 4, ch := { cap := 0, buf := [] }, addr := "8.8.8.8" }]).2 ≠ []) ∧
    (Beam.Send
        { pears := [{ id := 4, ch := { cap := 0, buf := [] }, addr := "8.8.8.8" }],
          buffer := 0, upgrader := {}, headers := [], logger := none }
        (Payload.str "z")).logsOf = [] := ⟨by decide, rfl⟩

/-- C6 (amended): on a beam whose logger is configured, a `Send` whose
fan-out failed for at least one pear emits exactly one aggregated overflow
log line, carrying the comma-joined list of all affected pear addresses, and
a `Send` with no failed push emits no log line at all. -/
theorem C6_aggregated_overflow_log (b : Beam) (d : Payload) (buf : String) (u : Unit)
    (hl : b.logger = some u) (h : jsonMarshal d = .ok buf) :
    ((fanOut { messageType := 1, data := buf } b.pears).2 ≠ [] →
      (b.Send d).logsOf =
        [{ fmt := "Discarded buffer overflow message for %s",
           args := [stringsJoin (fanOut { messageType := 1, data := buf } b.pears).2 ","] }]) ∧
    ((fanOut { messageType := 1, data := buf } b.pears).2 = [] →
      (b.Send d).logsOf = []) := by
  rw [Send_ok b d buf h]
  constructor
  · intro hne
    rw [if_pos (by simpa using List.length_pos.mpr hne), hl]
    rfl
  · intro he
    rw [he]
    simp [SendResult.logsOf]

/-- C6 witness: one overflow line listing the single failed address. -/
theorem C6_witness :
    (Beam.Send
        { pears := [{ id := 4, ch := { cap := 0, buf := [] }, addr := "8.8.4.4" }],
          buffer := 0, upgrader := {}, headers := [], logger := some () }
        (Payload.str "z")).logsOf =
      [{ fmt := "Discarded buffer overflow message for %s", args := ["8.8.4.4"] }] :=
  (C6_aggregated_overflow_log
      { pears := [{ id := 4, ch := { cap := 0, buf := [] }, addr := "8.8.4.4" }],
        buffer := 0, upgrader := {}, headers := [], logger := some () }
      (Payload.str "z") "\x22z\x22" () rfl rfl).1 (by decide)

/-- C7: one successful `Send` serializes the payload once into a single
prepared message (text frame with the marshaled bytes), and that one message
— the very same value, the identical bytes — is what gets appended to the
queue of every pear that accepted it; every other pear is left unchanged. -/
theorem C7_single_prepared_message (b : Beam) (d : Payload) (buf : String)
    (h : jsonMarshal d = .ok buf) :
    ∃ msg : PreparedMessage, msg = { messageType := 1, data := buf } ∧
      List.Forall₂
        (fun p q : pear =>
          q = { p with ch := { p.ch with buf := p.ch.buf ++ [msg] } } ∨ q = p)
        b.pears (b.Send d).beamOf.pears := by
  refine ⟨{ messageType := 1, data := buf }, rfl, ?_⟩
  rw [Send_beamOf_ok b d buf h]
  show List.Forall₂ _ b.pears
    ((fanOut { messageType := 1, data := buf } b.pears).1)
  rw [fanOut_fst]
  generalize b.pears = l
  induction l with
  | nil => constructor
  | cons p ps ih =>
      refine List.Forall₂.cons ?_ ih
      by_cases hc : p.ch.buf.length < p.ch.cap
      · left
        simp [Chan.trySend, hc]
      · right
        simp [Chan.trySend, hc]

/-- C7 witness: both pears of a two-pear beam receive the same single
prepared message. -/
theorem C7_witness :
    ∃ msg : PreparedMessage, msg = { messageType := 1, data := "\x22hi\x22" } ∧
      List.Forall₂
        (fun p q : pear =>
          q = { p with ch := { p.ch with buf := p.ch.buf ++ [msg] } } ∨ q = p)
        [{ id := 1, ch := { cap := 3, buf := [] }, addr := "a" },
         { id := 2, ch := { cap := 3, buf := [] }, addr := "b" }]
        ((Beam.Send
            { pears := [{ id := 1, ch := { cap := 3, buf := [] }, addr := "a" },
                        { id := 2, ch := { cap := 3, buf := [] }, addr := "b" }],
              buffer := 3, upgrader := {}, headers := [], logger := some () }
            (Payload.str "hi")).beamOf.pears) :=
  C7_single_prepared_message
    { pears := [{ id := 1, ch := { cap := 3, buf := [] }, addr := "a" },
                { id := 2, ch := { cap := 3, buf := [] }, addr := "b" }],
      buffer := 3, upgrader := {}, headers := [], logger := some () }
    (Payload.str "hi") "\x22hi\x22" rfl

/-- C8: per-pear delivery order equals Send-call order.  For every interleaving
of connections, broadcasts, delivery-loop steps and disconnections, started
from a fresh beam of any configuration: for every live pear, the messages its
delivery loop has written followed by the messages still pending in its queue
are exactly the messages successfully enqueued for it, in Send order; and for
every pear id (including disconnected pears) the written sequence is a prefix
of the successfully-enqueued sequence — so writes happen in enqueue order with
no reordering, duplication or invention. -/
theorem C8_delivery_in_send_order (buffer : Nat)
    (headers : List (String × String)) (lg : Option Unit)
    (events : List Event) :
    (∀ p ∈ (runEvents (initWorld buffer headers lg) events).beam.pears,
        (runEvents (initWorld buffer headers lg) events).written p.id ++
            p.ch.buf =
          (runEvents (initWorld buffer headers lg) events).accepted p.id) ∧
    (∀ n, ∃ rest,
        (runEvents (initWorld buffer headers lg) events).written n ++ rest =
          (runEvents (initWorld buffer headers lg) events).accepted n) := by
  have h := WInv_run (initWorld buffer headers lg) events
    (WInv_init buffer headers lg)
  exact ⟨h.2.2.2.1, h.2.2.2.2⟩

/-- C9: `remove` is idempotent and total: removing twice equals removing
once; removing a pear whose identity is absent from the registry leaves the
beam exactly as it was; and the resulting registry contains precisely the
pears of the original registry whose identity differs from the removed one. -/
theorem C9_remove_idempotent (b : Beam) (p : pear) :
    ((b.remove p).remove p = b.remove p) ∧
    ((∀ q ∈ b.pears, q.id ≠ p.id) → b.remove p = b) ∧
    (∀ q : pear, q ∈ (b.remove p).pears ↔ q ∈ b.pears ∧ q.id ≠ p.id) := by
  refine ⟨?_, ?_, ?_⟩
  · unfold Beam.remove
    simp [List.filter_filter]
  · intro h
    unfold Beam.remove
    have hf : b.pears.filter (fun q => q.id ≠ p.id) = b.pears :=
      List.filter_eq_self.mpr (by intro a ha; simpa using h a ha)
    rw [hf]
  · intro q
    unfold Beam.remove
    simp [List.mem_filter]

/-- C9 witness: removing an absent pear is a no-op on a concrete beam. -/
theorem C9_witness :
    Beam.remove
        { pears := [{ id := 1, ch := { cap := 2, buf := [] }, addr := "a" }],
          buffer := 2, upgrader := {}, headers := [], logger := some () }
        { id := 2, ch := { cap := 2, buf := [] }, addr := "b" } =
      { pears := [{ id := 1, ch := { cap := 2, buf := [] }, addr := "a" }],
        buffer := 2, upgrader := {}, headers := [], logger := some () } :=
  (C9_remove_idempotent
      { pears := [{ id := 1, ch := { cap := 2, buf := [] }, addr := "a" }],
        buffer := 2, upgrader := {}, headers := [], logger := some () }
      { id := 2, ch := { cap := 2, buf := [] }, addr := "b" }).2.1 (by decide)

/-- C10: `Send` never modifies the beam apart from pear queues.  For every
payload — marshaling success, failure, or the nil-logger panic — the state
observed after the call has the same buffer, headers, upgrader and logger,
and the same registered pears (same identities, addresses and capacities, in
the same order); only the queue contents may differ. -/
theorem C10_send_frame (b : Beam) (d : Payload) :
    ((b.Send d).beamOf.buffer = b.buffer) ∧
    ((b.Send d).beamOf.headers = b.headers) ∧
    ((b.Send d).beamOf.upgrader = b.upgrader) ∧
    ((b.Send d).beamOf.logger = b.logger) ∧
    ((b.Send d).beamOf.pears.map (fun p => (p.id, p.addr, p.ch.cap)) =
      b.pears.map (fun p => (p.id, p.addr, p.ch.cap))) := by
  cases hm : jsonMarshal d with
  | error e =>
      rw [Send_err b d e hm]
      exact ⟨rfl, rfl, rfl, rfl, rfl⟩
  | ok buf =>
      rw [Send_beamOf_ok b d buf hm]
      refine ⟨rfl, rfl, rfl, rfl, ?_⟩
      rw [fanOut_fst]
      simp [List.map_map, Function.comp, trySend_cap]
